import Mathlib

/-!
Verification development for the chunk reassembly engine and message-framing
protocol of `src/externalappmsgservice.cpp` (asteroid-btsyncd).

The embedding models byte buffers (`QByteArray`) as `List Nat`, each element a
byte value in `0..255`.  On the ARM targets this daemon runs on, plain `char`
is unsigned, so reading `chunk[i]` yields the byte value directly; the model
relies on that.  The characteristic's reassembly state
(`m_lastMessageCounter`, `m_messageBytes`, `m_numReceivedMessageBytes`) is an
explicit record, and each `WriteValue` call is a pure state transformer that
additionally reports which control-flow path the call took (the C++ method
returns `void`; the outcome component only records which branch ran: early
return on a short chunk, normal return mid-message, the `assert`/`memcpy`
bounds violation, or a `processMessage` invocation and its result).
-/

/-- Result of parsing a reassembled buffer.  The C++ `MessageDetails::fromBytes`
returns `bool`, with each failure site distinguished by its log message; this
enum names those failure sites (the spec's `FrameError` taxonomy). -/
inductive FrameError where
  | invalidSource
  | invalidDestination
  | reservedDestination
  | truncatedFrame
deriving DecidableEq

deriving instance DecidableEq for Except

/-- The parsed frame, from the C++ `struct MessageDetails`: source identifier,
destination identifier, and opaque payload, as byte strings. -/
structure MessageDetails where
  m_source : List Nat
  m_destination : List Nat
  m_payload : List Nat
deriving DecidableEq

/-- Byte-level model of `QChar::isLetterOrNumber` as used by the validation
lambdas.  The source converts the byte array to a string and classifies each
character; for ASCII bytes (`< 128`, one byte per character) this is exactly
the ASCII letters and digits.  Bytes `>= 128` are modelled as not
letter-or-number (a lone such byte is invalid UTF-8 and decodes to a
replacement character, which is not a letter or number); theorems whose claim
depends on character classification therefore restrict to ASCII inputs. -/
def isLetterOrNumberByte (b : Nat) : Bool :=
  (48 ≤ b && b ≤ 57) || (65 ≤ b && b ≤ 90) || (97 ≤ b && b ≤ 122)

/-- Characters permitted in the source field: `ch.isLetterOrNumber() || ch == '.'`
(`46` is `'.'`). -/
def isSourceChar (b : Nat) : Bool := isLetterOrNumberByte b || b == 46

/-- Characters permitted in the destination field: `ch.isLetterOrNumber()`. -/
def isDestChar (b : Nat) : Bool := isLetterOrNumberByte b

/-- The reserved destination literal `"interfaces"`, as bytes. -/
def interfacesLiteral : List Nat := [105, 110, 116, 101, 114, 102, 97, 99, 101, 115]

/-- Splits a byte list at its first newline (`10` = `'\n'`): returns the bytes
before the newline and the bytes after it, or `none` when no newline occurs.
This captures one round of the scanning loop in `MessageDetails::fromBytes`,
which advances `position` to the next `'\n'` and takes
`bytes.mid(substringStartPosition, position - substringStartPosition)` as the
completed substring. -/
def breakAtNewline : List Nat → Option (List Nat × List Nat)
  | [] => none
  | b :: rest =>
    if b = 10 then some ([], rest)
    else (breakAtNewline rest).map (fun p => (b :: p.1, p.2))

/-- `MessageDetails::fromBytes`.  The C++ loop scans for newlines while
`curPartIndex < LAST_INDEX`; at the first newline it validates the source
substring (via `checkString` with the bad-character predicate
`!(ch.isLetterOrNumber() || ch == '.')`), at the second it validates the
destination substring (bad-character predicate `!ch.isLetterOrNumber()`,
then the `startsWith("interfaces")` check).  If the loop ends with
`curPartIndex != LAST_INDEX` (fewer than two newlines found) it fails;
otherwise the remainder `bytes.mid(substringStartPosition)` is the payload.
Note that an empty substring passes both `checkString` calls (no character
fails the predicate) and `startsWith` on an empty string is false. -/
def fromBytes (bytes : List Nat) : Except FrameError MessageDetails :=
  match breakAtNewline bytes with
  | none => .error .truncatedFrame
  | some (source, rest) =>
    if source.any (fun ch => !(isLetterOrNumberByte ch || ch == 46)) then
      .error .invalidSource
    else
      match breakAtNewline rest with
      | none => .error .truncatedFrame
      | some (destination, payload) =>
        if destination.any (fun ch => !(isLetterOrNumberByte ch)) then
          .error .invalidDestination
        else if interfacesLiteral.isPrefixOf destination then
          .error .reservedDestination
        else
          .ok ⟨source, destination, payload⟩

/-- The reassembly state owned by the `PushMessageChrc` characteristic:
`m_lastMessageCounter`, `m_messageBytes`, `m_numReceivedMessageBytes`. -/
structure ReassemblyState where
  lastMessageCounter : Option Nat
  messageBytes : List Nat
  numReceivedMessageBytes : Nat
deriving DecidableEq

/-- The state produced by `PushMessageChrc::discardReceivedData`: counter
absent, buffer cleared, received byte count zero. -/
def discardReceivedData : ReassemblyState := ⟨none, [], 0⟩

/-- State at construction: `m_lastMessageCounter` default-constructs to
`nullopt` and `m_messageBytes` to empty.  `m_numReceivedMessageBytes` is not
initialized by the constructor, but every path that reads it first runs
`discardReceivedData` (any chunk shorter than 5 bytes resets, and a first
valid chunk is always a new message because the counter is absent), so `0` is
the value it holds at every read; the model uses `0` from the start. -/
def initialState : ReassemblyState := ⟨none, [], 0⟩

/-- Lines 145-163 of `WriteValue`: read the message counter, decide
`isNewMessage = (m_lastMessageCounter == nullopt) || (*m_lastMessageCounter != messageCounter)`,
and if so discard the partial data and record the new counter. -/
def handleCounter (s : ReassemblyState) (messageCounter : Nat) : ReassemblyState :=
  if s.lastMessageCounter = none ∨ s.lastMessageCounter ≠ some messageCounter then
    ⟨some messageCounter, [], 0⟩
  else s

/-- `chunk[1] | ((quint16)(chunk[2]) << 8)`: the 16-bit little-endian chunk
offset.  With unsigned `char`, both operands are byte values and the `int`
result is below `2^16`, so the conversion to `quint16` is exact. -/
def decodeChunkOffset (lo hi : Nat) : Nat := lo ||| (hi <<< 8)

/-- `(chunk[3] | ((quint16)(chunk[4]) << 8)) + 1` assigned to a `quint16`:
the declared total message size.  The `int` sum can reach `2^16` (when both
bytes are `255`), and the conversion to `quint16` reduces modulo `2^16`. -/
def decodeMessageSize (lo hi : Nat) : Nat := ((lo ||| (hi <<< 8)) + 1) % 65536

/-- `m_messageBytes.resize(messageSize)`: keeps the first `n` bytes and
extends to length `n`.  Qt leaves the added bytes uninitialized; the model
fills them with `0` (no claim depends on the fill value, only on which
offsets a chunk writes). -/
def resizeTo (buf : List Nat) (n : Nat) : List Nat :=
  buf.take n ++ List.replicate (n - buf.length) 0

/-- The `memcpy` into `m_messageBytes.data() + chunkOffset` from the chunk
body. -/
def writeIntoBuffer (buf : List Nat) (offset : Nat) (body : List Nat) : List Nat :=
  buf.take offset ++ body ++ buf.drop (offset + body.length)

/-- The control-flow outcome of one `WriteValue` call (the C++ method returns
`void`; this component of the model records which branch the call took). -/
inductive WriteOutcome where
  /-- `chunk.size() < 5`: warning logged, `discardReceivedData()`, early return. -/
  | rejectedShortChunk
  /-- Normal return with the message still incomplete. -/
  | inProgress
  /-- The condition of `assert(chunkSize <= (messageSize - chunkOffset))` is
  false: the process aborts in a debug build, and in a release build the
  subsequent `memcpy` writes out of the buffer's range (undefined behavior). -/
  | assertFailed
  /-- `processMessage()` ran, `fromBytes` succeeded, and the frame was handed
  to the D-Bus router (delivery errors are logged and ignored), after which
  `discardReceivedData()` ran. -/
  | delivered (msg : MessageDetails)
  /-- `processMessage()` ran but `fromBytes` failed: the early return skips
  `discardReceivedData()`, leaving the reassembly state in place. -/
  | decodeFailed (e : FrameError)
deriving DecidableEq

/-- `PushMessageChrc::processMessage`: parse `m_messageBytes`; on failure
return immediately (state untouched); on success call the router (the D-Bus
call is outside the core; a delivery error is logged and ignored) and then
`discardReceivedData()`. -/
def processMessage (s : ReassemblyState) : ReassemblyState × WriteOutcome :=
  match fromBytes s.messageBytes with
  | .error e => (s, .decodeFailed e)
  | .ok msg => (discardReceivedData, .delivered msg)

/-- `PushMessageChrc::WriteValue`, following the source line by line: reject
chunks shorter than 5 bytes (discarding any partial state); handle the
message counter; decode the chunk offset and message size; add the chunk
payload length to `m_numReceivedMessageBytes`; resize the buffer when its
size differs from the declared message size; check the `assert` condition
(`int` arithmetic, so `messageSize - chunkOffset` may be negative) and copy
the body into the buffer at the chunk offset; finally run `processMessage`
when the received byte count has reached the declared size. -/
def writeValue (s : ReassemblyState) (chunk : List Nat) : ReassemblyState × WriteOutcome :=
  match chunk with
  | c0 :: c1 :: c2 :: c3 :: c4 :: body =>
    let s1 := handleCounter s c0
    let chunkOffset := decodeChunkOffset c1 c2
    let messageSize := decodeMessageSize c3 c4
    let chunkSize := body.length
    let received := s1.numReceivedMessageBytes + chunkSize
    let buf1 := if s1.messageBytes.length ≠ messageSize then resizeTo s1.messageBytes messageSize
                else s1.messageBytes
    if (chunkSize : Int) ≤ (messageSize : Int) - (chunkOffset : Int) then
      let s2 : ReassemblyState := ⟨s1.lastMessageCounter, writeIntoBuffer buf1 chunkOffset body, received⟩
      if messageSize ≤ received then processMessage s2 else (s2, .inProgress)
    else
      (⟨s1.lastMessageCounter, buf1, received⟩, .assertFailed)
  | _ => (discardReceivedData, .rejectedShortChunk)

/-- Runs a sequence of chunks through `WriteValue`, collecting each call's
outcome. -/
def runChunks : ReassemblyState → List (List Nat) → ReassemblyState × List WriteOutcome
  | s, [] => (s, [])
  | s, c :: cs =>
    let p := writeValue s c
    let q := runChunks p.1 cs
    (q.1, p.2 :: q.2)

/-- Modelled from the spec and the protocol comment at the top of the source
file (the transmit path is not part of this fragment): the sender splits a
framed message into chunks, each carrying a 5-byte header of message counter,
16-bit little-endian chunk offset, and 16-bit little-endian `(size - 1)`,
followed by that chunk's slice of the message.  `splits` lists the payload
length of each chunk; `offset` is the running message offset. -/
def encodeChunksAux (counter : Nat) (msg : List Nat) : Nat → List Nat → List (List Nat)
  | _, [] => []
  | offset, l :: ls =>
    (counter :: offset % 256 :: offset / 256 % 256 ::
      (msg.length - 1) % 256 :: (msg.length - 1) / 256 % 256 ::
      (msg.drop offset).take l) :: encodeChunksAux counter msg (offset + l) ls

/-- Modelled from the spec: chunking of a whole message starting at offset 0. -/
def encodeChunks (counter : Nat) (msg : List Nat) (splits : List Nat) : List (List Nat) :=
  encodeChunksAux counter msg 0 splits

/-- Mid-reassembly state after the chunks covering the first `offset` bytes of
`msg` have arrived in order: counter recorded, buffer sized to the full
message with the prefix filled in, received count equal to `offset`. -/
def invState (counter : Nat) (msg : List Nat) (offset : Nat) : ReassemblyState :=
  ⟨some counter, msg.take offset ++ List.replicate (msg.length - offset) 0, offset⟩

/-- A 65536-byte framed message (source `"a"`, destination `"b"`, payload of
65532 `'c'` bytes): its declared size field is `65535, 65535 - 1`, i.e. bytes
`255, 255`, whose decoded message size wraps to `0`. -/
def hugeFramedMessage : List Nat := [97, 10, 98, 10] ++ List.replicate 65532 99

example : fromBytes [97, 10, 98, 10] = .ok ⟨[97], [98], []⟩ := by decide
example : fromBytes [9, 0] = .error .truncatedFrame := by decide
example : fromBytes [10, 10] = .ok ⟨[], [], []⟩ := by decide
example :
    (writeValue initialState [5, 0, 0, 3, 0, 97, 10, 98, 10]).2 =
      .delivered ⟨[97], [98], []⟩ := by decide
example : (writeValue initialState [0, 0, 0, 0, 0, 65, 66]).2 = .assertFailed := by decide

/-! Helper lemmas about the byte-level arithmetic and the parser. -/

theorem lor_byte_decomp (lo hi : Nat) (hlo : lo < 256) :
    lo ||| (hi <<< 8) = lo + 256 * hi := by
  apply Nat.eq_of_testBit_eq
  intro i
  rw [Nat.testBit_lor, Nat.testBit_shiftLeft,
    show lo + 256 * hi = 2 ^ 8 * hi + lo by ring,
    Nat.testBit_mul_pow_two_add hi (by omega)]
  by_cases hc : i < 8
  · have : ¬ (i ≥ 8) := by omega
    simp [hc, this]
  · have h256 : (256 : Nat) ≤ 2 ^ i := by
      calc (256 : Nat) = 2 ^ 8 := by norm_num
        _ ≤ 2 ^ i := Nat.pow_le_pow_right (by omega) (by omega)
    have hlo2 : lo.testBit i = false :=
      Nat.testBit_eq_false_of_lt (lt_of_lt_of_le hlo h256)
    have : i ≥ 8 := by omega
    simp [hc, this, hlo2]

theorem decodeChunkOffset_eq (lo hi : Nat) (hlo : lo < 256) :
    decodeChunkOffset lo hi = lo + 256 * hi := by
  unfold decodeChunkOffset
  exact lor_byte_decomp lo hi hlo

theorem decodeMessageSize_eq (lo hi : Nat) (hlo : lo < 256) :
    decodeMessageSize lo hi = (lo + 256 * hi + 1) % 65536 := by
  unfold decodeMessageSize
  rw [lor_byte_decomp lo hi hlo]

theorem breakAtNewline_append (a rest : List Nat) (h : 10 ∉ a) :
    breakAtNewline (a ++ 10 :: rest) = some (a, rest) := by
  induction a with
  | nil => simp [breakAtNewline]
  | cons b bs ih =>
    have hb : b ≠ 10 := fun e => h (by simp [e])
    have hbs : (10 : Nat) ∉ bs := fun m => h (List.mem_cons_of_mem _ m)
    simp [breakAtNewline, hb, ih hbs]

theorem breakAtNewline_some (bytes a rest : List Nat)
    (h : breakAtNewline bytes = some (a, rest)) :
    bytes = a ++ 10 :: rest ∧ 10 ∉ a := by
  induction bytes generalizing a rest with
  | nil => simp [breakAtNewline] at h
  | cons b bs ih =>
    by_cases hb : b = 10
    · subst hb
      simp [breakAtNewline] at h
      obtain ⟨rfl, rfl⟩ := h
      simp
    · simp only [breakAtNewline, if_neg hb] at h
      cases e : breakAtNewline bs with
      | none => rw [e] at h; simp at h
      | some p =>
        rw [e] at h
        simp at h
        obtain ⟨rfl, rfl⟩ := h
        obtain ⟨h1, h2⟩ := ih p.1 p.2 (by rw [e])
        constructor
        · simp [h1]
        · intro m
          rcases List.mem_cons.mp m with h3 | h3
          · exact hb h3.symm
          · exact h2 h3

theorem breakAtNewline_none (bytes : List Nat) (h : 10 ∉ bytes) :
    breakAtNewline bytes = none := by
  induction bytes with
  | nil => rfl
  | cons b bs ih =>
    have hb : b ≠ 10 := fun e => h (by simp [e])
    have hbs : (10 : Nat) ∉ bs := fun m => h (List.mem_cons_of_mem _ m)
    simp [breakAtNewline, hb, ih hbs]

theorem not_mem_of_all_true {p : Nat → Bool} (hp : p 10 = false) {l : List Nat}
    (h : l.all p = true) : 10 ∉ l := by
  intro m
  have := List.all_eq_true.mp h _ m
  rw [hp] at this
  exact Bool.false_ne_true this

theorem any_not_eq_false {p : Nat → Bool} {l : List Nat} (h : l.all p = true) :
    (l.any fun ch => !(p ch)) = false := by
  rw [List.any_eq_false]
  intro x hx
  rw [List.all_eq_true.mp h x hx]
  simp

theorem fromBytes_frame (src dst payload : List Nat)
    (hsv : src.all isSourceChar = true) (hdv : dst.all isDestChar = true)
    (hpre : interfacesLiteral.isPrefixOf dst = false) :
    fromBytes (src ++ 10 :: (dst ++ 10 :: payload)) = .ok ⟨src, dst, payload⟩ := by
  have hs : (10 : Nat) ∉ src := not_mem_of_all_true (by decide) hsv
  have hd : (10 : Nat) ∉ dst := not_mem_of_all_true (by decide) hdv
  have hsa : (src.any fun ch => !(isLetterOrNumberByte ch || ch == 46)) = false :=
    any_not_eq_false (p := isSourceChar) hsv
  have hda : (dst.any fun ch => !(isLetterOrNumberByte ch)) = false :=
    any_not_eq_false (p := isDestChar) hdv
  unfold fromBytes
  rw [breakAtNewline_append src _ hs]
  dsimp only
  rw [hsa]
  simp only [Bool.false_eq_true, if_false]
  rw [breakAtNewline_append dst _ hd]
  dsimp only
  rw [hda, hpre]
  simp

theorem all_of_any_not {p : Nat → Bool} {l : List Nat}
    (h : (l.any fun x => !(p x)) = false) : l.all p = true := by
  rw [List.all_eq_true]
  intro x hx
  have := List.any_eq_false.mp h x hx
  simpa using this

theorem any_not_of_all_false {p : Nat → Bool} {l : List Nat}
    (h : l.all p = false) : (l.any fun x => !(p x)) = true := by
  cases e : (l.any fun x => !(p x)) with
  | true => rfl
  | false =>
    have := all_of_any_not (p := p) e
    simp [this] at h

theorem writeValue_short (s : ReassemblyState) (chunk : List Nat)
    (h : chunk.length < 5) :
    writeValue s chunk = (discardReceivedData, .rejectedShortChunk) := by
  rcases chunk with _ | ⟨a, _ | ⟨b, _ | ⟨c, _ | ⟨d, _ | ⟨e, rest⟩⟩⟩⟩⟩
  · rfl
  · rfl
  · rfl
  · rfl
  · rfl
  · simp only [List.length_cons] at h
    omega

theorem handleCounter_new (s : ReassemblyState) (c : Nat)
    (h : s.lastMessageCounter = none ∨ s.lastMessageCounter ≠ some c) :
    handleCounter s c = ⟨some c, [], 0⟩ := by
  unfold handleCounter
  rw [if_pos h]

theorem processMessage_ok (s : ReassemblyState) (m : MessageDetails)
    (h : fromBytes s.messageBytes = .ok m) :
    processMessage s = (discardReceivedData, .delivered m) := by
  unfold processMessage
  rw [h]

theorem processMessage_err (s : ReassemblyState) (e : FrameError)
    (h : fromBytes s.messageBytes = .error e) :
    processMessage s = (s, .decodeFailed e) := by
  unfold processMessage
  rw [h]

/-- C1: the spec requires a chunk whose `chunkOffset + chunkPayloadLength`
exceeds the declared message size to be rejected without writing out of range
and without crashing.  The code instead reaches
`assert(chunkSize <= (messageSize - chunkOffset))` followed by an
unconditional `memcpy`: on the concrete chunk
`[0, 0, 0, 0, 0, 65, 66]` (counter 0, offset 0, declared size 1, two payload
bytes) the assert condition is false, so a debug build aborts and a release
build performs an out-of-range write — the claim's required behavior does not
occur. -/
theorem claim_C1_oversized_chunk_hits_assert :
    (writeValue initialState [0, 0, 0, 0, 0, 65, 66]).2 = .assertFailed ∧
    decodeMessageSize 0 0 < decodeChunkOffset 0 0 + 2 := by decide

/-- C2 counterexample: a one-chunk message whose reassembled buffer fails to
decode (`[65]`, no newlines).  The received byte count reaches the declared
size and `processMessage` runs, but its early return on decode failure skips
`discardReceivedData`, so the state is NOT cleared: the counter stays `some 7`
and the buffer and count survive, contradicting the claim that the state is
cleared regardless of whether the frame decode succeeds or fails. -/
theorem claim_C2_counterexample :
    (writeValue initialState [7, 0, 0, 0, 0, 65]).2 = .decodeFailed .truncatedFrame ∧
    (writeValue initialState [7, 0, 0, 0, 0, 65]).1 = ⟨some 7, [65], 1⟩ ∧
    (writeValue initialState [7, 0, 0, 0, 0, 65]).1 ≠ discardReceivedData := by decide

/-- C2 amended: when a completed buffer decodes successfully the reassembly
state (`lastCounter`, buffer, received count) is cleared together, regardless
of the delivery outcome (the router call's error is only logged); when the
decode fails, the state is left entirely unchanged. -/
theorem claim_C2_completion_clears_state_iff_decode_succeeds (s : ReassemblyState) :
    (∀ m, fromBytes s.messageBytes = .ok m →
      processMessage s = (discardReceivedData, .delivered m)) ∧
    (∀ e, fromBytes s.messageBytes = .error e →
      processMessage s = (s, .decodeFailed e)) :=
  ⟨fun m hm => processMessage_ok s m hm, fun e he => processMessage_err s e he⟩

/-- C2 witness: a state holding the completed buffer `"a\nb\n"` decodes
successfully and is cleared by `processMessage`. -/
theorem claim_C2_witness :
    fromBytes (ReassemblyState.mk (some 7) [97, 10, 98, 10] 4).messageBytes =
      .ok ⟨[97], [98], []⟩ ∧
    processMessage ⟨some 7, [97, 10, 98, 10], 4⟩ =
      (discardReceivedData, .delivered ⟨[97], [98], []⟩) :=
  ⟨by decide,
    (claim_C2_completion_clears_state_iff_decode_succeeds ⟨some 7, [97, 10, 98, 10], 4⟩).1
      ⟨[97], [98], []⟩ (by decide)⟩

/-- C4 counterexample: for header bytes 3-4 both `255` the `int` sum
`65535 + 1` is truncated by the `quint16` assignment, so the decoded message
size is `0`, not `(byte3 + 256*byte4) + 1 = 65536` as the claim states for
all byte values. -/
theorem claim_C4_counterexample :
    decodeMessageSize 255 255 = 0 ∧ decodeMessageSize 255 255 ≠ 255 + 256 * 255 + 1 := by
  decide

/-- C4 amended: for every chunk of length >= 5, the decoded chunkOffset equals
`byte1 + 256*byte2` for all byte values 0..255 including values >= 128, and
the decoded messageSize equals `((byte3 + 256*byte4) + 1) % 2^16`, which is
`(byte3 + 256*byte4) + 1` except when byte3 = byte4 = 255, where the `quint16`
truncation makes it 0. -/
theorem claim_C4_decode_littleendian (b1 b2 b3 b4 : Nat) (h1 : b1 < 256)
    (h2 : b2 < 256) (h3 : b3 < 256) (h4 : b4 < 256) :
    decodeChunkOffset b1 b2 = b1 + 256 * b2 ∧
    decodeMessageSize b3 b4 = (b3 + 256 * b4 + 1) % 65536 ∧
    (¬(b3 = 255 ∧ b4 = 255) → decodeMessageSize b3 b4 = b3 + 256 * b4 + 1) := by
  refine ⟨decodeChunkOffset_eq b1 b2 h1, decodeMessageSize_eq b3 b4 h3, fun hne => ?_⟩
  rw [decodeMessageSize_eq b3 b4 h3]
  apply Nat.mod_eq_of_lt
  omega

/-- C4 witness: bytes with high bit set decode as plain little-endian. -/
theorem claim_C4_witness :
    (130 < 256 ∧ 7 < 256 ∧ 255 < 256 ∧ 254 < 256) ∧
    decodeChunkOffset 130 7 = 130 + 256 * 7 ∧
    decodeMessageSize 255 254 = (255 + 256 * 254 + 1) % 65536 ∧
    (¬(255 = 255 ∧ 254 = 255) → decodeMessageSize 255 254 = 255 + 256 * 254 + 1) :=
  ⟨by decide,
    claim_C4_decode_littleendian 130 7 255 254 (by decide) (by decide) (by decide) (by decide)⟩

/-- C5 counterexample: the buffer `"\n\nx"` has an empty source field and an
empty destination field, yet `fromBytes` accepts it — `checkString` passes
vacuously on an empty string and `startsWith("interfaces")` is false on it —
contradicting the claim that decode requires non-empty source and
destination. -/
theorem claim_C5_counterexample :
    fromBytes [10, 10, 120] = .ok ⟨[], [], [120]⟩ := by decide

/-- C5 amended: for buffers of ASCII bytes — the domain on which the
byte-level character model is exact (see `isLetterOrNumberByte`; the real
code's UTF-8 decode additionally accepts multi-byte Unicode letters) —
`fromBytes` succeeds exactly when the buffer splits as
`source '\n' destination '\n' payload` with the source containing only
letters, digits, or `'.'`, the destination containing only letters or digits,
and the destination not beginning with `"interfaces"`.  Non-emptiness of the
fields is NOT required: empty source and destination are accepted. -/
theorem claim_C5_decode_success_characterization (bytes : List Nat)
    (_hascii : ∀ b ∈ bytes, b < 128) :
    (∃ m, fromBytes bytes = .ok m) ↔
    ∃ src dst payload, bytes = src ++ 10 :: (dst ++ 10 :: payload) ∧
      src.all isSourceChar = true ∧ dst.all isDestChar = true ∧
      interfacesLiteral.isPrefixOf dst = false := by
  constructor
  · rintro ⟨m, hm⟩
    unfold fromBytes at hm
    cases e1 : breakAtNewline bytes with
    | none => rw [e1] at hm; simp at hm
    | some p =>
      obtain ⟨src, rest⟩ := p
      rw [e1] at hm
      dsimp only at hm
      by_cases ha : (src.any fun ch => !(isLetterOrNumberByte ch || ch == 46)) = true
      · rw [if_pos ha] at hm; simp at hm
      · rw [if_neg ha] at hm
        cases e2 : breakAtNewline rest with
        | none => rw [e2] at hm; simp at hm
        | some q =>
          obtain ⟨dst, payload⟩ := q
          rw [e2] at hm
          dsimp only at hm
          by_cases hb : (dst.any fun ch => !(isLetterOrNumberByte ch)) = true
          · rw [if_pos hb] at hm; simp at hm
          · rw [if_neg hb] at hm
            by_cases hc : interfacesLiteral.isPrefixOf dst = true
            · rw [if_pos hc] at hm; simp at hm
            · refine ⟨src, dst, payload, ?_, ?_, ?_, ?_⟩
              · obtain ⟨hb1, _⟩ := breakAtNewline_some bytes src rest e1
                obtain ⟨hb2, _⟩ := breakAtNewline_some rest dst payload e2
                rw [hb1, hb2]
              · exact all_of_any_not (p := isSourceChar) (Bool.not_eq_true _ ▸ ha)
              · exact all_of_any_not (p := isDestChar) (Bool.not_eq_true _ ▸ hb)
              · exact Bool.not_eq_true _ ▸ hc
  · rintro ⟨src, dst, payload, rfl, hsv, hdv, hpre⟩
    exact ⟨⟨src, dst, payload⟩, fromBytes_frame src dst payload hsv hdv hpre⟩

/-- C5 witness: the ASCII buffer `"a\nb\nx"` instantiates the
characterization; both sides of the iff hold via the decomposition
source `"a"`, destination `"b"`, payload `"x"`. -/
theorem claim_C5_witness :
    (∀ b ∈ ([97, 10, 98, 10, 120] : List Nat), b < 128) ∧
    ((∃ m, fromBytes [97, 10, 98, 10, 120] = .ok m) ↔
      ∃ src dst payload,
        ([97, 10, 98, 10, 120] : List Nat) = src ++ 10 :: (dst ++ 10 :: payload) ∧
        src.all isSourceChar = true ∧ dst.all isDestChar = true ∧
        interfacesLiteral.isPrefixOf dst = false) :=
  ⟨by decide,
    claim_C5_decode_success_characterization [97, 10, 98, 10, 120] (by decide)⟩

/-- C6: a chunk of length >= 5 whose counter byte differs from `lastCounter`
(or arrives with `lastCounter` absent) makes the engine discard the
accumulated buffer and byte count and record the chunk's counter; the whole
`WriteValue` call then behaves exactly as if run on a freshly cleared state,
so bytes of the old and the new message are never mixed.  Counter equality is
on 8-bit values, so counter 0 after counter 255 is "different". -/
theorem claim_C6_counter_change_discards (s : ReassemblyState)
    (c0 c1 c2 c3 c4 : Nat) (body : List Nat)
    (h : s.lastMessageCounter = none ∨ s.lastMessageCounter ≠ some c0) :
    handleCounter s c0 = ⟨some c0, [], 0⟩ ∧
    writeValue s (c0 :: c1 :: c2 :: c3 :: c4 :: body) =
      writeValue discardReceivedData (c0 :: c1 :: c2 :: c3 :: c4 :: body) := by
  have h1 := handleCounter_new s c0 h
  have h2 : handleCounter discardReceivedData c0 = ⟨some c0, [], 0⟩ :=
    handleCounter_new discardReceivedData c0 (Or.inl rfl)
  refine ⟨h1, ?_⟩
  show writeValue s (c0 :: c1 :: c2 :: c3 :: c4 :: body) = _
  unfold writeValue
  dsimp only
  rw [h1, h2]

/-- C6 witness: counter wraparound — after a message with counter 255, a chunk
with counter 0 is treated as a different (new) message. -/
theorem claim_C6_witness :
    ((ReassemblyState.mk (some 255) [1, 2, 3] 3).lastMessageCounter = none ∨
      (ReassemblyState.mk (some 255) [1, 2, 3] 3).lastMessageCounter ≠ some 0) ∧
    (handleCounter ⟨some 255, [1, 2, 3], 3⟩ 0 = ⟨some 0, [], 0⟩ ∧
      writeValue ⟨some 255, [1, 2, 3], 3⟩ [0, 0, 0, 9, 0, 77] =
        writeValue discardReceivedData [0, 0, 0, 9, 0, 77]) :=
  ⟨by decide, claim_C6_counter_change_discards ⟨some 255, [1, 2, 3], 3⟩ 0 0 0 9 0 [77] (by decide)⟩

/-- C9: a chunk shorter than 5 bytes is rejected as malformed: the engine logs
a warning, clears all reassembly state via `discardReceivedData` (counter
absent, buffer empty, count zero), and returns to await the next chunk — no
crash path exists for this input. -/
theorem claim_C9_short_chunk_rejected (s : ReassemblyState) (chunk : List Nat)
    (h : chunk.length < 5) :
    writeValue s chunk = (discardReceivedData, .rejectedShortChunk) ∧
    (writeValue s chunk).1.lastMessageCounter = none ∧
    (writeValue s chunk).1.messageBytes = [] ∧
    (writeValue s chunk).1.numReceivedMessageBytes = 0 := by
  rw [writeValue_short s chunk h]
  exact ⟨rfl, rfl, rfl, rfl⟩

/-- C9 witness: a 4-byte chunk submitted mid-message clears the state. -/
theorem claim_C9_witness :
    ([9, 9, 9, 9] : List Nat).length < 5 ∧
    (writeValue ⟨some 3, [1, 2], 2⟩ [9, 9, 9, 9] =
        (discardReceivedData, .rejectedShortChunk) ∧
      (writeValue ⟨some 3, [1, 2], 2⟩ [9, 9, 9, 9]).1.lastMessageCounter = none ∧
      (writeValue ⟨some 3, [1, 2], 2⟩ [9, 9, 9, 9]).1.messageBytes = [] ∧
      (writeValue ⟨some 3, [1, 2], 2⟩ [9, 9, 9, 9]).1.numReceivedMessageBytes = 0) :=
  ⟨by decide, claim_C9_short_chunk_rejected ⟨some 3, [1, 2], 2⟩ [9, 9, 9, 9] (by decide)⟩

/-- C10 counterexample: a completed message whose decode ran but failed does
NOT clear the state: after `[9,0,0,0,0,66]` (declared size 1, body `[66]`,
which has no newlines) `processMessage` runs, the decode fails, and
`lastCounter` remains `some 9`; a duplicate trailing chunk with counter 9 is
then NOT classified as a new message (`handleCounter` leaves the state
unchanged), contradicting the claim that completed-and-decoded messages leave
`lastCounter` absent. -/
theorem claim_C10_counterexample :
    (writeValue initialState [9, 0, 0, 0, 0, 66]).2 = .decodeFailed .truncatedFrame ∧
    (writeValue initialState [9, 0, 0, 0, 0, 66]).1.lastMessageCounter = some 9 ∧
    handleCounter (writeValue initialState [9, 0, 0, 0, 0, 66]).1 9 =
      (writeValue initialState [9, 0, 0, 0, 0, 66]).1 := by decide

/-- C10 amended: whenever the reassembly state is cleared (after an undersized
chunk, or after a completed message whose decode SUCCEEDED — a failed decode
does not clear), `lastCounter` becomes absent, and with `lastCounter` absent
every chunk of length >= 5 is classified as starting a new message whatever
its counter byte; concretely, resubmitting the single chunk of a
just-completed successfully-decoded message starts a fresh accumulation under
the same counter value and delivers the message a second time rather than
being ignored. -/
theorem claim_C10_cleared_state_restarts :
    (∀ (s : ReassemblyState) (chunk : List Nat), chunk.length < 5 →
      (writeValue s chunk).1.lastMessageCounter = none) ∧
    (∀ (s : ReassemblyState) (m : MessageDetails), fromBytes s.messageBytes = .ok m →
      (processMessage s).1.lastMessageCounter = none) ∧
    (∀ (s : ReassemblyState) (c : Nat), s.lastMessageCounter = none →
      handleCounter s c = ⟨some c, [], 0⟩) ∧
    runChunks initialState [[3, 0, 0, 3, 0, 97, 10, 98, 10], [3, 0, 0, 3, 0, 97, 10, 98, 10]] =
      (discardReceivedData,
        [.delivered ⟨[97], [98], []⟩, .delivered ⟨[97], [98], []⟩]) := by
  refine ⟨?_, ?_, ?_, by decide⟩
  · intro s chunk h
    rw [writeValue_short s chunk h]
    rfl
  · intro s m hm
    rw [processMessage_ok s m hm]
    rfl
  · intro s c h
    exact handleCounter_new s c (Or.inl h)

/-- C10 witness: with the counter absent, a chunk with counter 7 starts a new
message. -/
theorem claim_C10_witness :
    (ReassemblyState.mk none [5] 2).lastMessageCounter = none ∧
    handleCounter ⟨none, [5], 2⟩ 7 = ⟨some 7, [], 0⟩ :=
  ⟨rfl, claim_C10_cleared_state_restarts.2.2.1 ⟨none, [5], 2⟩ 7 rfl⟩

theorem processMessage_completes (s : ReassemblyState) :
    (∃ m, (processMessage s).2 = .delivered m) ∨
    (∃ e, (processMessage s).2 = .decodeFailed e) := by
  cases h : fromBytes s.messageBytes with
  | error e =>
    right
    exact ⟨e, by unfold processMessage; rw [h]⟩
  | ok m =>
    left
    exact ⟨m, by unfold processMessage; rw [h]⟩

/-- C7: completeness is judged purely by the cumulative received byte count
reaching the declared message size.  For every chunk that passes the bounds
assert, `processMessage` runs exactly when the accumulated count (after
adding this chunk's payload length, `chunk.length - 5`) reaches the declared
size — whatever offsets the chunk covers — and a chunk that leaves the
message incomplete raises the count by exactly its payload length.
Consequently a duplicated chunk falsely triggers completion: sending
`[5,0,0,1,0,9]` (declared size 2, payload `[9]` at offset 0) twice signals
completion although offset 1 of the 2-byte message was never written (both
chunks cover only `[0, 1)`). -/
theorem claim_C7_completion_by_count :
    (∀ (s : ReassemblyState) (c0 c1 c2 c3 c4 : Nat) (body : List Nat),
      ((body.length : Int) ≤ (decodeMessageSize c3 c4 : Int) - (decodeChunkOffset c1 c2 : Int)) →
      ((((∃ m, (writeValue s (c0 :: c1 :: c2 :: c3 :: c4 :: body)).2 = .delivered m) ∨
         (∃ e, (writeValue s (c0 :: c1 :: c2 :: c3 :: c4 :: body)).2 = .decodeFailed e)) ↔
        decodeMessageSize c3 c4 ≤ (handleCounter s c0).numReceivedMessageBytes + body.length) ∧
       ((writeValue s (c0 :: c1 :: c2 :: c3 :: c4 :: body)).2 = .inProgress →
        (writeValue s (c0 :: c1 :: c2 :: c3 :: c4 :: body)).1.numReceivedMessageBytes =
          (handleCounter s c0).numReceivedMessageBytes + body.length))) ∧
    ((runChunks initialState [[5, 0, 0, 1, 0, 9], [5, 0, 0, 1, 0, 9]]).2 =
        [.inProgress, .decodeFailed .truncatedFrame] ∧
      decodeChunkOffset 0 0 + 1 < decodeMessageSize 1 0) := by
  refine ⟨?_, by decide⟩
  intro s c0 c1 c2 c3 c4 body h
  unfold writeValue
  dsimp only
  rw [if_pos h]
  by_cases hc : decodeMessageSize c3 c4 ≤ (handleCounter s c0).numReceivedMessageBytes + body.length
  · rw [if_pos hc]
    refine ⟨iff_of_true (processMessage_completes _) hc, fun habs => ?_⟩
    rcases processMessage_completes
        ⟨(handleCounter s c0).lastMessageCounter,
          writeIntoBuffer
            (if (handleCounter s c0).messageBytes.length ≠ decodeMessageSize c3 c4 then
              resizeTo (handleCounter s c0).messageBytes (decodeMessageSize c3 c4)
            else (handleCounter s c0).messageBytes)
            (decodeChunkOffset c1 c2) body,
          (handleCounter s c0).numReceivedMessageBytes + body.length⟩ with
      ⟨m, hm⟩ | ⟨e, he⟩
    · rw [habs] at hm
      exact absurd hm (by simp)
    · rw [habs] at he
      exact absurd he (by simp)
  · rw [if_neg hc]
    exact ⟨iff_of_false (by simp) hc, fun _ => rfl⟩

/-- C7 witness: a first chunk carrying 1 of 10 declared bytes does not
complete the message and raises the count from 0 to 1. -/
theorem claim_C7_witness :
    ((([55] : List Nat).length : Int) ≤
      (decodeMessageSize 9 0 : Int) - (decodeChunkOffset 0 0 : Int)) ∧
    ((((∃ m, (writeValue initialState [1, 0, 0, 9, 0, 55]).2 = .delivered m) ∨
       (∃ e, (writeValue initialState [1, 0, 0, 9, 0, 55]).2 = .decodeFailed e)) ↔
      decodeMessageSize 9 0 ≤
        (handleCounter initialState 1).numReceivedMessageBytes + ([55] : List Nat).length) ∧
     ((writeValue initialState [1, 0, 0, 9, 0, 55]).2 = .inProgress →
      (writeValue initialState [1, 0, 0, 9, 0, 55]).1.numReceivedMessageBytes =
        (handleCounter initialState 1).numReceivedMessageBytes + ([55] : List Nat).length)) :=
  ⟨by decide, claim_C7_completion_by_count.1 initialState 1 0 0 9 0 [55] (by decide)⟩

/-- C8: frame validation is ordered and short-circuits.  A terminated source
field containing a character outside letters, digits, and `'.'` fails as
`invalidSource` before the destination is examined; with a valid source, a
terminated destination containing a character outside letters and digits
fails as `invalidDestination` (checked before the reserved prefix); with
valid characters, a destination beginning with `"interfaces"` fails as
`reservedDestination`.  Concretely `"interfacesFoo"` → `reservedDestination`,
`"foo.bar"` → `invalidDestination`, and source `"com.example.App"` is
accepted. -/
theorem claim_C8_validation_order :
    (∀ src rest : List Nat, (∀ b ∈ src, b < 128) → 10 ∉ src →
      src.all isSourceChar = false →
      fromBytes (src ++ 10 :: rest) = .error .invalidSource) ∧
    (∀ src dst rest : List Nat, src.all isSourceChar = true →
      (∀ b ∈ dst, b < 128) → 10 ∉ dst → dst.all isDestChar = false →
      fromBytes (src ++ 10 :: (dst ++ 10 :: rest)) = .error .invalidDestination) ∧
    (∀ src dst rest : List Nat, src.all isSourceChar = true →
      dst.all isDestChar = true → interfacesLiteral.isPrefixOf dst = true →
      fromBytes (src ++ 10 :: (dst ++ 10 :: rest)) = .error .reservedDestination) ∧
    fromBytes ([97, 10] ++ [105, 110, 116, 101, 114, 102, 97, 99, 101, 115, 70, 111, 111] ++
        [10, 120]) = .error .reservedDestination ∧
    fromBytes ([97, 10] ++ [102, 111, 111, 46, 98, 97, 114] ++ [10, 120]) =
      .error .invalidDestination ∧
    fromBytes [99, 111, 109, 46, 101, 120, 97, 109, 112, 108, 101, 46, 65, 112, 112,
        10, 98, 10, 120] =
      .ok ⟨[99, 111, 109, 46, 101, 120, 97, 109, 112, 108, 101, 46, 65, 112, 112],
        [98], [120]⟩ := by
  refine ⟨?_, ?_, ?_, by decide, by decide, by decide⟩
  · intro src rest hascii hnl hbad
    have hbad' : (src.any fun ch => !(isLetterOrNumberByte ch || ch == 46)) = true := by
      simpa [isSourceChar] using any_not_of_all_false (p := isSourceChar) hbad
    unfold fromBytes
    rw [breakAtNewline_append src rest hnl]
    dsimp only
    rw [hbad']
    simp
  · intro src dst rest hsv hascii hnl hbad
    have hs : (10 : Nat) ∉ src := not_mem_of_all_true (by decide) hsv
    have hsa : (src.any fun ch => !(isLetterOrNumberByte ch || ch == 46)) = false :=
      any_not_eq_false (p := isSourceChar) hsv
    have hbad' : (dst.any fun ch => !(isLetterOrNumberByte ch)) = true := by
      simpa [isDestChar] using any_not_of_all_false (p := isDestChar) hbad
    unfold fromBytes
    rw [breakAtNewline_append src _ hs]
    dsimp only
    rw [hsa]
    simp only [Bool.false_eq_true, if_false]
    rw [breakAtNewline_append dst _ hnl]
    dsimp only
    rw [hbad']
    simp
  · intro src dst rest hsv hdv hpre
    have hs : (10 : Nat) ∉ src := not_mem_of_all_true (by decide) hsv
    have hd : (10 : Nat) ∉ dst := not_mem_of_all_true (by decide) hdv
    have hsa : (src.any fun ch => !(isLetterOrNumberByte ch || ch == 46)) = false :=
      any_not_eq_false (p := isSourceChar) hsv
    have hda : (dst.any fun ch => !(isLetterOrNumberByte ch)) = false :=
      any_not_eq_false (p := isDestChar) hdv
    unfold fromBytes
    rw [breakAtNewline_append src _ hs]
    dsimp only
    rw [hsa]
    simp only [Bool.false_eq_true, if_false]
    rw [breakAtNewline_append dst _ hd]
    dsimp only
    rw [hda, hpre]
    simp

/-- C8 witness: source `"a!"` (terminated by a newline) fails as
`invalidSource` regardless of what follows. -/
theorem claim_C8_witness :
    ((∀ b ∈ ([97, 33] : List Nat), b < 128) ∧ (10 : Nat) ∉ ([97, 33] : List Nat) ∧
      ([97, 33] : List Nat).all isSourceChar = false) ∧
    fromBytes (([97, 33] : List Nat) ++ 10 :: [98, 10, 99]) = .error .invalidSource :=
  ⟨⟨by decide, by decide, by decide⟩,
    claim_C8_validation_order.1 [97, 33] [98, 10, 99] (by decide) (by decide) (by decide)⟩

theorem decode_offset_of_encoded (offset : Nat) (h : offset ≤ 65535) :
    decodeChunkOffset (offset % 256) (offset / 256 % 256) = offset := by
  rw [decodeChunkOffset_eq _ _ (Nat.mod_lt _ (by omega))]
  omega

theorem decode_size_of_encoded (len : Nat) (h1 : 1 ≤ len) (h2 : len ≤ 65535) :
    decodeMessageSize ((len - 1) % 256) ((len - 1) / 256 % 256) = len := by
  rw [decodeMessageSize_eq _ _ (Nat.mod_lt _ (by omega))]
  omega


theorem writeIntoBuffer_fill (msg : List Nat) (offset l : Nat)
    (h : offset + l ≤ msg.length) :
    writeIntoBuffer (msg.take offset ++ List.replicate (msg.length - offset) 0) offset
        ((msg.drop offset).take l) =
      msg.take (offset + l) ++ List.replicate (msg.length - (offset + l)) 0 := by
  have hto : (msg.take offset).length = offset := List.length_take_of_le (by omega)
  have hbl : ((msg.drop offset).take l).length = l := by
    apply List.length_take_of_le
    rw [List.length_drop]
    omega
  have hdrop :
      List.drop (offset + l) (msg.take offset ++ List.replicate (msg.length - offset) 0) =
        List.replicate (msg.length - (offset + l)) 0 := by
    rw [show offset + l = (msg.take offset).length + l by rw [hto], List.drop_append,
      List.drop_replicate]
    congr 1
    omega
  unfold writeIntoBuffer
  rw [hbl, List.take_left' hto, hdrop, List.take_add]

theorem handleCounter_same (s : ReassemblyState) (c : Nat)
    (h : s.lastMessageCounter = some c) : handleCounter s c = s := by
  unfold handleCounter
  rw [if_neg]
  rintro (h2 | h2)
  · rw [h] at h2
    exact Option.noConfusion h2
  · exact h2 h

theorem writeValue_normal (s : ReassemblyState) (c0 c1 c2 c3 c4 : Nat) (body : List Nat)
    (hsame : s.lastMessageCounter = some c0)
    (hlen : s.messageBytes.length = decodeMessageSize c3 c4)
    (hbound : (body.length : Int) ≤
      (decodeMessageSize c3 c4 : Int) - (decodeChunkOffset c1 c2 : Int)) :
    writeValue s (c0 :: c1 :: c2 :: c3 :: c4 :: body) =
      if decodeMessageSize c3 c4 ≤ s.numReceivedMessageBytes + body.length then
        processMessage ⟨some c0, writeIntoBuffer s.messageBytes (decodeChunkOffset c1 c2) body,
          s.numReceivedMessageBytes + body.length⟩
      else
        (⟨some c0, writeIntoBuffer s.messageBytes (decodeChunkOffset c1 c2) body,
          s.numReceivedMessageBytes + body.length⟩, .inProgress) := by
  unfold writeValue
  dsimp only
  rw [handleCounter_same s c0 hsame]
  rw [if_pos hbound]
  rw [if_neg (show ¬(s.messageBytes.length ≠ decodeMessageSize c3 c4) from fun hne => hne hlen)]
  rw [hsame]

theorem invState_buffer_length (counter : Nat) (msg : List Nat) (offset : Nat)
    (h : offset ≤ msg.length) :
    (invState counter msg offset).messageBytes.length = msg.length := by
  unfold invState
  simp only [List.length_append, List.length_replicate, List.length_take_of_le h]
  omega

theorem writeValue_encoded_mid (counter : Nat) (msg : List Nat) (offset l : Nat)
    (hl : 1 ≤ l) (hol : offset + l ≤ msg.length) (hlen : msg.length ≤ 65535)
    (hpos : 1 ≤ msg.length) :
    writeValue (invState counter msg offset)
        (counter :: offset % 256 :: offset / 256 % 256 ::
          (msg.length - 1) % 256 :: (msg.length - 1) / 256 % 256 ::
          (msg.drop offset).take l) =
      if msg.length ≤ offset + l then processMessage ⟨some counter, msg, offset + l⟩
      else (invState counter msg (offset + l), .inProgress) := by
  have hoff := decode_offset_of_encoded offset (by omega)
  have hsize := decode_size_of_encoded msg.length hpos hlen
  have hbl : ((msg.drop offset).take l).length = l := by
    apply List.length_take_of_le
    rw [List.length_drop]
    omega
  rw [writeValue_normal (invState counter msg offset) counter _ _ _ _ _
        rfl
        (by rw [hsize]; exact invState_buffer_length counter msg offset (by omega))
        (by rw [hoff, hsize, hbl]; omega)]
  rw [hoff, hsize, hbl]
  have hrecv : (invState counter msg offset).numReceivedMessageBytes = offset := rfl
  have hbufeq : (invState counter msg offset).messageBytes =
      msg.take offset ++ List.replicate (msg.length - offset) 0 := rfl
  rw [hrecv, hbufeq, writeIntoBuffer_fill msg offset l hol]
  by_cases hdone : msg.length ≤ offset + l
  · rw [if_pos hdone, if_pos hdone]
    have he : offset + l = msg.length := by omega
    rw [he, List.take_length, Nat.sub_self, List.replicate_zero, List.append_nil]
  · rw [if_neg hdone, if_neg hdone]
    rfl

theorem resizeTo_nil (n : Nat) : resizeTo [] n = List.replicate n 0 := by
  unfold resizeTo
  simp

theorem writeValue_new (s : ReassemblyState) (c0 c1 c2 c3 c4 : Nat) (body : List Nat)
    (hnew : s.lastMessageCounter = none ∨ s.lastMessageCounter ≠ some c0)
    (hpos : 1 ≤ decodeMessageSize c3 c4)
    (hbound : (body.length : Int) ≤
      (decodeMessageSize c3 c4 : Int) - (decodeChunkOffset c1 c2 : Int)) :
    writeValue s (c0 :: c1 :: c2 :: c3 :: c4 :: body) =
      if decodeMessageSize c3 c4 ≤ body.length then
        processMessage ⟨some c0,
          writeIntoBuffer (List.replicate (decodeMessageSize c3 c4) 0)
            (decodeChunkOffset c1 c2) body, body.length⟩
      else
        (⟨some c0,
          writeIntoBuffer (List.replicate (decodeMessageSize c3 c4) 0)
            (decodeChunkOffset c1 c2) body, body.length⟩, .inProgress) := by
  unfold writeValue
  dsimp only
  rw [handleCounter_new s c0 hnew]
  rw [if_pos hbound]
  rw [if_pos (show (([] : List Nat)).length ≠ decodeMessageSize c3 c4 from by
    simp only [List.length_nil]
    omega)]
  rw [resizeTo_nil]
  simp only [Nat.zero_add]

theorem writeValue_initial_encoded_eq (counter : Nat) (msg : List Nat)
    (c1 c2 c3 c4 : Nat) (body : List Nat) (hposm : 1 ≤ msg.length)
    (hsize : decodeMessageSize c3 c4 = msg.length)
    (hbound : (body.length : Int) ≤
      (decodeMessageSize c3 c4 : Int) - (decodeChunkOffset c1 c2 : Int)) :
    writeValue initialState (counter :: c1 :: c2 :: c3 :: c4 :: body) =
      writeValue (invState counter msg 0) (counter :: c1 :: c2 :: c3 :: c4 :: body) := by
  rw [writeValue_new initialState counter c1 c2 c3 c4 body (Or.inl rfl)
    (by omega) hbound]
  rw [writeValue_normal (invState counter msg 0) counter c1 c2 c3 c4 body rfl
    (by rw [hsize]; exact invState_buffer_length counter msg 0 (by omega)) hbound]
  have hb : (invState counter msg 0).messageBytes =
      List.replicate (decodeMessageSize c3 c4) 0 := by
    unfold invState
    rw [hsize]
    simp
  have hr : (invState counter msg 0).numReceivedMessageBytes = 0 := rfl
  rw [hb, hr, Nat.zero_add]

theorem runChunks_cons (s : ReassemblyState) (c : List Nat) (cs : List (List Nat)) :
    runChunks s (c :: cs) =
      ((runChunks (writeValue s c).1 cs).1,
        (writeValue s c).2 :: (runChunks (writeValue s c).1 cs).2) := rfl

theorem runChunks_encoded (counter : Nat) (msg : List Nat) (hlen : msg.length ≤ 65535)
    (hpos : 1 ≤ msg.length) :
    ∀ (splits : List Nat) (offset : Nat), splits ≠ [] → (∀ x ∈ splits, 1 ≤ x) →
      offset + splits.sum = msg.length →
      (runChunks (invState counter msg offset)
          (encodeChunksAux counter msg offset splits)).2.getLast? =
        some (processMessage ⟨some counter, msg, msg.length⟩).2 := by
  intro splits
  induction splits with
  | nil => intro offset h; exact absurd rfl h
  | cons l ls ih =>
    intro offset _ hall hsum
    have hl : 1 ≤ l := hall l (by simp)
    have hol : offset + l ≤ msg.length := by
      have : l + ls.sum = (l :: ls).sum := (List.sum_cons).symm
      omega
    cases ls with
    | nil =>
      have hdone : offset + l = msg.length := by
        simp only [List.sum_cons, List.sum_nil, Nat.add_zero] at hsum
        omega
      show (runChunks (invState counter msg offset)
        ((counter :: offset % 256 :: offset / 256 % 256 ::
          (msg.length - 1) % 256 :: (msg.length - 1) / 256 % 256 ::
          (msg.drop offset).take l) :: [])).2.getLast? = _
      rw [runChunks_cons,
        writeValue_encoded_mid counter msg offset l hl hol hlen hpos,
        if_pos (by omega)]
      dsimp only [runChunks]
      rw [List.getLast?_singleton, hdone]
    | cons l2 ls2 =>
      have hmid : offset + l < msg.length := by
        simp only [List.sum_cons] at hsum
        have hl2 : 1 ≤ l2 := hall l2 (by simp)
        omega
      have ihr := ih (offset + l) (by simp) (fun x hx => hall x (by simp [hx]))
        (by simp only [List.sum_cons] at hsum ⊢; omega)
      show (runChunks (invState counter msg offset)
        ((counter :: offset % 256 :: offset / 256 % 256 ::
          (msg.length - 1) % 256 :: (msg.length - 1) / 256 % 256 ::
          (msg.drop offset).take l) ::
          encodeChunksAux counter msg (offset + l) (l2 :: ls2))).2.getLast? = _
      rw [runChunks_cons,
        writeValue_encoded_mid counter msg offset l hl hol hlen hpos,
        if_neg (by omega)]
      dsimp only
      rcases e : (runChunks (invState counter msg (offset + l))
          (encodeChunksAux counter msg (offset + l) (l2 :: ls2))).2 with _ | ⟨r, rs⟩
      · exfalso
        rw [e] at ihr
        simp at ihr
      · rw [e] at ihr
        rw [List.getLast?_cons_cons]
        exact ihr

/-- C3 counterexample: two failures of the claim as stated.  (i) The
destination `"interfaces"` satisfies the character-class rules (letters
only), yet the round trip fails: the message `"a\ninterfaces\n"` submitted as
one correctly-headed chunk completes reassembly but the decode rejects it as
the reserved destination, so no frame with the original payload is produced.
(ii) A 65536-byte framed message (allowed by the claim, which bounds nothing)
encodes its size field as bytes `255, 255`; the decoded `quint16` size wraps
to 0 and the very first chunk already fails the bounds assert instead of
reassembling. -/
theorem claim_C3_counterexample :
    interfacesLiteral.all isDestChar = true ∧
    (runChunks initialState
        (encodeChunks 0 ([97, 10] ++ interfacesLiteral ++ [10]) [13])).2 =
      [.decodeFailed .reservedDestination] ∧
    hugeFramedMessage.length = 65536 ∧
    (writeValue initialState ((encodeChunks 0 hugeFramedMessage [1, 65535]).headI)).2 =
      .assertFailed := by
  have hlen : hugeFramedMessage.length = 65536 := by
    unfold hugeFramedMessage
    rw [List.length_append, List.length_replicate]
    rfl
  have hhead : (encodeChunks 0 hugeFramedMessage [1, 65535]).headI =
      0 :: 0 % 256 :: 0 / 256 % 256 :: (hugeFramedMessage.length - 1) % 256 ::
        (hugeFramedMessage.length - 1) / 256 % 256 :: (hugeFramedMessage.drop 0).take 1 := rfl
  have htake : (hugeFramedMessage.drop 0).take 1 = [97] := rfl
  refine ⟨by decide, by decide, hlen, ?_⟩
  rw [hhead, hlen, htake]
  decide

/-- C3 amended: for every message (source, destination, payload) whose source
and destination satisfy the character-class rules, whose destination does not
begin with the reserved literal `"interfaces"`, and whose framed length is at
most 65535 bytes, every split of the framed message into ordered chunks of
chunk size >= 6 bytes with correct headers reassembles and decodes, and the
delivered frame carries exactly the original source, destination, and
payload. -/
theorem claim_C3_roundtrip (src dst payload : List Nat) (counter : Nat)
    (splits : List Nat)
    (hsv : src.all isSourceChar = true) (hdv : dst.all isDestChar = true)
    (hpre : interfacesLiteral.isPrefixOf dst = false)
    (hne : splits ≠ []) (hall : ∀ x ∈ splits, 1 ≤ x)
    (hsum : splits.sum = (src ++ 10 :: (dst ++ 10 :: payload)).length)
    (hlen : (src ++ 10 :: (dst ++ 10 :: payload)).length ≤ 65535) :
    (runChunks initialState
        (encodeChunks counter (src ++ 10 :: (dst ++ 10 :: payload)) splits)).2.getLast? =
      some (.delivered ⟨src, dst, payload⟩) := by
  set msg := src ++ 10 :: (dst ++ 10 :: payload) with hmsg
  have hpos : 1 ≤ msg.length := by
    rw [hmsg]
    simp only [List.length_append, List.length_cons]
    omega
  obtain ⟨l, ls, rfl⟩ : ∃ l ls, splits = l :: ls := by
    cases splits with
    | nil => exact absurd rfl hne
    | cons a b => exact ⟨a, b, rfl⟩
  have hl : 1 ≤ l := hall l (by simp)
  have hol0 : 0 + l ≤ msg.length := by
    have : (l :: ls).sum = l + ls.sum := List.sum_cons
    omega
  have hsize :
      decodeMessageSize ((msg.length - 1) % 256) ((msg.length - 1) / 256 % 256) = msg.length :=
    decode_size_of_encoded msg.length hpos hlen
  have hbl : ((msg.drop 0).take l).length = l := by
    apply List.length_take_of_le
    rw [List.length_drop]
    omega
  have hbound : (((msg.drop 0).take l).length : Int) ≤
      (decodeMessageSize ((msg.length - 1) % 256) ((msg.length - 1) / 256 % 256) : Int) -
        (decodeChunkOffset (0 % 256) (0 / 256 % 256) : Int) := by
    rw [hsize, hbl, decode_offset_of_encoded 0 (by omega)]
    omega
  have hfirst : runChunks initialState (encodeChunksAux counter msg 0 (l :: ls)) =
      runChunks (invState counter msg 0) (encodeChunksAux counter msg 0 (l :: ls)) := by
    show runChunks initialState
      ((counter :: 0 % 256 :: 0 / 256 % 256 ::
        (msg.length - 1) % 256 :: (msg.length - 1) / 256 % 256 ::
        (msg.drop 0).take l) :: encodeChunksAux counter msg (0 + l) ls) =
      runChunks (invState counter msg 0)
      ((counter :: 0 % 256 :: 0 / 256 % 256 ::
        (msg.length - 1) % 256 :: (msg.length - 1) / 256 % 256 ::
        (msg.drop 0).take l) :: encodeChunksAux counter msg (0 + l) ls)
    rw [runChunks_cons, runChunks_cons,
      writeValue_initial_encoded_eq counter msg (0 % 256) (0 / 256 % 256)
        ((msg.length - 1) % 256) ((msg.length - 1) / 256 % 256)
        ((msg.drop 0).take l) hpos hsize hbound]
  show (runChunks initialState (encodeChunksAux counter msg 0 (l :: ls))).2.getLast? = _
  rw [hfirst,
    runChunks_encoded counter msg hlen hpos (l :: ls) 0 (by simp) hall (by omega),
    processMessage_ok ⟨some counter, msg, msg.length⟩ ⟨src, dst, payload⟩
      (by rw [hmsg]; exact fromBytes_frame src dst payload hsv hdv hpre)]

/-- C3 witness: the message (source `"ab"`, destination `"cd"`, payload one
zero byte) split into chunks of payload lengths 3 and 4 round-trips. -/
theorem claim_C3_witness :
    (runChunks initialState
        (encodeChunks 5 ([97, 98] ++ 10 :: ([99, 100] ++ 10 :: [0])) [3, 4])).2.getLast? =
      some (.delivered ⟨[97, 98], [99, 100], [0]⟩) :=
  claim_C3_roundtrip [97, 98] [99, 100] [0] 5 [3, 4] (by decide) (by decide) (by decide)
    (by decide) (by decide) (by decide) (by decide)
